import Mathlib

/-!
Shallow embedding of the wallet core of the `smcli` repository
(`src/wallet/wallet.go`), together with theorems settling the claims about
its behaviour.

Conventions of the embedding:
* Go strings are modelled as `List Char`, byte slices as `List Nat` whose
  entries are intended to lie below 256 (stated as hypotheses where it
  matters).
* Go `int` is modelled as `Int`; Go `uint8` values are `Nat`s below 256 and
  the Go conversion `uint8(x)` of an `int x ≥ 0` is `x % 256`.
* Fallible Go functions returning `(T, error)` are modelled as `Except`.
* External capabilities that the wallet code calls but whose implementation
  is not part of the two source files (the bip39 library, the key
  derivation of `EDKeyPair`, the `common` package constants, the
  template-address computation of go-spacemesh) are abstracted as explicit
  parameters, so every theorem quantifies over them.
-/

/-- Unicode White_Space test, the embedding of Go's `unicode.IsSpace`
(used implicitly by `strings.Fields`): U+0009..U+000D, U+0020, U+0085,
U+00A0, U+1680, U+2000..U+200A, U+2028, U+2029, U+202F, U+205F, U+3000. -/
def goIsSpace (c : Char) : Bool :=
  (9 ≤ c.toNat && c.toNat ≤ 13) || c.toNat == 32 || c.toNat == 0x85 ||
  c.toNat == 0xA0 || c.toNat == 0x1680 ||
  (0x2000 ≤ c.toNat && c.toNat ≤ 0x200A) || c.toNat == 0x2028 ||
  c.toNat == 0x2029 || c.toNat == 0x202F || c.toNat == 0x205F ||
  c.toNat == 0x3000

/-- Accumulator-passing worker for `goFields`: `acc` holds the (reversed)
characters of the field currently being scanned. -/
def goFieldsAux (acc : List Char) : List Char → List (List Char)
  | [] => if acc.isEmpty then [] else [acc.reverse]
  | c :: cs =>
    if goIsSpace c then
      if acc.isEmpty then goFieldsAux [] cs
      else acc.reverse :: goFieldsAux [] cs
    else goFieldsAux (c :: acc) cs

/-- Embedding of Go's `strings.Fields`: split a string into the maximal
runs of non-whitespace characters, dropping all whitespace. -/
def goFields (s : List Char) : List (List Char) :=
  goFieldsAux [] s

/-- Canonical form of a mnemonic phrase as computed at wallet.go:104,
`strings.Join(strings.Fields(m), " ")`: the whitespace-separated fields
rejoined with single ASCII spaces. -/
def mnemonicCanonical (m : List Char) : List Char :=
  List.intercalate [' '] (goFields m)

/-- Error values produced by the wallet-construction path of wallet.go.
`external` wraps an error coming out of one of the abstracted capabilities
(master- or child-key derivation). -/
inductive WalletErr (E : Type) : Type
  | invalidAccountCount : WalletErr E
  | whitespaceViolation : WalletErr E
  | invalidMnemonic : WalletErr E
  | external (e : E) : WalletErr E
  deriving DecidableEq

/-- Embedding of `walletMetadata` (wallet.go:37). -/
structure WalletMetadata : Type where
  displayName : String
  created : String
  genesisID : String
  deriving DecidableEq

/-- Embedding of `walletSecrets` (wallet.go:78); `K` is the abstract type
of keypairs (`EDKeyPair` in the source). -/
structure WalletSecrets (K : Type) : Type where
  mnemonic : List Char
  masterKeypair : K
  accounts : List K
  deriving DecidableEq

/-- Embedding of `Wallet` (wallet.go:23). -/
structure Wallet (K : Type) : Type where
  meta : WalletMetadata
  secrets : WalletSecrets K
  deriving DecidableEq

/-- Modelled from the spec: the capabilities the wallet constructors call
whose implementations are outside the two source files — the configured
maximum `common.MaxAccountsPerWallet`, the bip39 phrase validation and
seed derivation (`ToSeed` is deterministic and pure, §4.1; the passphrase
is fixed to the empty string at wallet.go:116), the master-key derivation
`NewMasterKeyPair` / the ledger variant, the child-key derivation
`NewChildKeyPair` (§4.2), and the creation-timestamp source
`common.NowTimeString`. They are bundled as an environment record over
which every theorem quantifies. -/
structure WalletEnv (K E : Type) : Type where
  maxAccountsPerWallet : Nat
  isMnemonicValid : List Char → Bool
  newSeed : List Char → List Nat
  newMasterKeyPair : List Nat → Except E K
  newMasterKeyPairFromLedger : Except E K
  newChildKeyPair : K → List Nat → Nat → Except E K
  nowTimeString : String

/-- Worker for `accountsFromMaster`: derive `remaining` further accounts
starting at index `i`, failing fast on the first derivation error. -/
def accountsFromMasterGo {K E : Type} (derive : Nat → Except E K) (i : Nat) :
    Nat → Except E (List K)
  | 0 => .ok []
  | remaining + 1 =>
    match derive i with
    | .error e => .error e
    | .ok acct =>
      match accountsFromMasterGo derive (i + 1) remaining with
      | .error e => .error e
      | .ok accts => .ok (acct :: accts)

/-- Embedding of `accountsFromMaster` (wallet.go:163): derive accounts for
indices `0 .. n-1` in order, failing fast on the first error. The call
`masterKeypair.NewChildKeyPair(masterSeed, i)` of the source is abstracted
as the function `derive` (master keypair and seed are fixed throughout the
loop, so only the index varies). -/
def accountsFromMaster {K E : Type} (derive : Nat → Except E K) (n : Nat) :
    Except E (List K) :=
  accountsFromMasterGo derive 0 n

/-- Embedding of `walletFromMnemonicAndAccounts` (wallet.go:144); the
source always returns a nil error. -/
def walletFromMnemonicAndAccounts {K E : Type} (env : WalletEnv K E)
    (m : List Char) (masterKp : K) (kp : List K) :
    Except (WalletErr E) (Wallet K) :=
  .ok
    { meta :=
        { displayName := "Main Wallet"
          created := env.nowTimeString
          genesisID := "" }
      secrets :=
        { mnemonic := m
          masterKeypair := masterKp
          accounts := kp } }

/-- Embedding of `NewMultiWalletFromMnemonic` (wallet.go:98): account-count
check, whitespace check, bip39 word-count/checksum check, then seed and
key derivation. -/
def NewMultiWalletFromMnemonic {K E : Type} (env : WalletEnv K E)
    (m : List Char) (n : Int) : Except (WalletErr E) (Wallet K) :=
  if n < 0 ∨ n > (env.maxAccountsPerWallet : Int) then
    .error .invalidAccountCount
  else if mnemonicCanonical m ≠ m then
    .error .whitespaceViolation
  else if ¬ env.isMnemonicValid m then
    .error .invalidMnemonic
  else
    let seed := env.newSeed m
    match env.newMasterKeyPair seed with
    | .error e => .error (.external e)
    | .ok masterKeyPair =>
      match accountsFromMaster
          (fun i => env.newChildKeyPair masterKeyPair seed i) n.toNat with
      | .error e => .error (.external e)
      | .ok accounts =>
        walletFromMnemonicAndAccounts env m masterKeyPair accounts

/-- Embedding of `NewMultiWalletFromLedger` (wallet.go:128): account-count
check, then master key from the ledger and child derivation with an empty
seed; the mnemonic field is the sentinel `"(none)"`. -/
def NewMultiWalletFromLedger {K E : Type} (env : WalletEnv K E) (n : Int) :
    Except (WalletErr E) (Wallet K) :=
  if n < 0 ∨ n > (env.maxAccountsPerWallet : Int) then
    .error .invalidAccountCount
  else
    match env.newMasterKeyPairFromLedger with
    | .error e => .error (.external e)
    | .ok masterKeyPair =>
      match accountsFromMaster
          (fun i => env.newChildKeyPair masterKeyPair [] i) n.toNat with
      | .error e => .error (.external e)
      | .ok accounts =>
        walletFromMnemonicAndAccounts env ("(none)".toList) masterKeyPair
          accounts

/-- Embedding of `PubkeyToAddress` (wallet.go:179). The source copies at
most `ed25519.PublicKeySize = 32` bytes of `pubkey` into a zero-initialized
32-byte array, computes the wallet-template principal of that key, and
renders it under the process-wide network prefix set from `hrp`; the
external `core.ComputePrincipal` and the prefix-dependent rendering
`Address.String` are abstracted as `computePrincipalW` and
`addressToString` (the global prefix is threaded explicitly). -/
def PubkeyToAddress {A : Type} (computePrincipalW : List Nat → A)
    (addressToString : A → String → String)
    (pubkey : List Nat) (hrp : String) : String :=
  let key := pubkey.take 32 ++ List.replicate (32 - pubkey.length) 0
  addressToString (computePrincipalW key) hrp

/-- Error values produced by `SpawnMultiSig` (wallet.go:189). -/
inductive MultisigErr : Type
  | invalidThreshold : MultisigErr
  | invalidParticipantCount : MultisigErr
  deriving DecidableEq

/-- Embedding of `SpawnMultiSig` (wallet.go:189). `threshold` is a Go
`uint8` (so a `Nat` below 256 in the intended domain); the source compares
it against `uint8(numParticipants)`, i.e. the participant count reduced
modulo 256. The external `core.ComputePrincipal` on the multisig template
is abstracted as `computePrincipalMS`. -/
def SpawnMultiSig {A : Type} (computePrincipalMS : Nat → List (List Nat) → A)
    (threshold : Nat) (participants : List (List Nat)) :
    Except MultisigErr A :=
  let numParticipants := participants.length
  if threshold < 1 ∨ threshold > numParticipants % 256 then
    .error .invalidThreshold
  else if numParticipants ≤ 1 then
    .error .invalidParticipantCount
  else
    .ok (computePrincipalMS threshold participants)

/-- Hex digit of a nibble, as produced by Go's `encoding/hex` lowercase
table `"0123456789abcdef"`. -/
def hexDigitChar (n : Nat) : Char :=
  if n < 10 then Char.ofNat (48 + n) else Char.ofNat (87 + n)

/-- Embedding of Go's `hex.EncodeToString`: two lowercase hex digits per
byte, high nibble first. -/
def hexEncodeToString (bs : List Nat) : List Char :=
  bs.flatMap (fun b => [hexDigitChar (b / 16), hexDigitChar (b % 16)])

/-- Value of a hex digit as accepted by Go's `hex.DecodeString`:
`0-9`, `a-f` and `A-F`; `none` on every other character. -/
def hexCharValue (c : Char) : Option Nat :=
  if 48 ≤ c.toNat ∧ c.toNat ≤ 57 then some (c.toNat - 48)
  else if 97 ≤ c.toNat ∧ c.toNat ≤ 102 then some (c.toNat - 87)
  else if 65 ≤ c.toNat ∧ c.toNat ≤ 70 then some (c.toNat - 55)
  else none

/-- Error values of the JSON-then-hex decoding path of
`hexEncodedCiphertext.UnmarshalJSON` (wallet.go:54). -/
inductive UnmarshalErr : Type
  | jsonErr : UnmarshalErr
  | hexErr : UnmarshalErr
  deriving DecidableEq

/-- Embedding of Go's `hex.DecodeString`: fails on a character that is not
a hex digit and on odd input length. -/
def hexDecodeString : List Char → Except UnmarshalErr (List Nat)
  | [] => .ok []
  | [_] => .error .hexErr
  | c1 :: c2 :: rest =>
    match hexCharValue c1, hexCharValue c2 with
    | some hi, some lo =>
      match hexDecodeString rest with
      | .error e => .error e
      | .ok bs => .ok ((16 * hi + lo) :: bs)
    | _, _ => .error .hexErr

/-- Character that needs no escaping inside a JSON string literal for the
purposes of this codec (neither a quote nor a backslash); every character
`hexEncodeToString` emits is of this kind. -/
def plainJsonChar (c : Char) : Bool :=
  c.toNat ≠ 34 && c.toNat ≠ 92

/-- Embedding of `json.Marshal` applied to a Go string whose characters
need no escaping (the hex alphabet never does): the string wrapped in
double quotes. -/
def jsonMarshalString (s : List Char) : List Char :=
  '"' :: s ++ ['"']

/-- Embedding of `json.Unmarshal` into a Go string, restricted to the
escape-free fragment this codec produces: accepts exactly a double-quoted
run of plain characters and strips the quotes, failing otherwise. -/
def jsonUnmarshalString (data : List Char) : Except UnmarshalErr (List Char) :=
  if 2 ≤ data.length ∧ data.head? = some '"' ∧ data.getLast? = some '"' ∧
      ((data.drop 1).dropLast.all plainJsonChar) = true then
    .ok (data.drop 1).dropLast
  else
    .error .jsonErr

/-- Embedding of `hexEncodedCiphertext.MarshalJSON` (wallet.go:50):
`json.Marshal(hex.EncodeToString(*c))`. -/
def ciphertextMarshalJSON (c : List Nat) : List Char :=
  jsonMarshalString (hexEncodeToString c)

/-- Embedding of `hexEncodedCiphertext.UnmarshalJSON` (wallet.go:54):
unmarshal a JSON string, then `hex.DecodeString` it. -/
def ciphertextUnmarshalJSON (data : List Char) : Except UnmarshalErr (List Nat) :=
  match jsonUnmarshalString data with
  | .error e => .error e
  | .ok hexString => hexDecodeString hexString

/-- Concrete trivial multisig principal computation, used to instantiate
theorems at closed inputs. -/
def cpZero : Nat → List (List Nat) → List Nat := fun _ _ => []

/-- Concrete 32-byte all-zero public key. -/
def pkZero : List Nat := List.replicate 32 0

/-- C5: for a participant list of length 2..255 and a uint8 threshold `t`,
`SpawnMultiSig` fails with the invalid-threshold error exactly when
`t < 1` or `t > len(participants)`, and otherwise succeeds with the
deterministic multisig principal of the inputs. -/
theorem spawnMultiSig_threshold_check {A : Type}
    (cp : Nat → List (List Nat) → A) (t : Nat) (ps : List (List Nat))
    (ht : t < 256) (h2 : 2 ≤ ps.length) (h255 : ps.length ≤ 255) :
    (SpawnMultiSig cp t ps = .error .invalidThreshold ↔
      t < 1 ∨ ps.length < t)
  ∧ (1 ≤ t → t ≤ ps.length → SpawnMultiSig cp t ps = .ok (cp t ps)) := by
  have hmod : ps.length % 256 = ps.length := Nat.mod_eq_of_lt (by omega)
  constructor
  · simp only [SpawnMultiSig]
    rw [hmod]
    by_cases hc : t < 1 ∨ ps.length < t
    · rw [if_pos hc]
      exact ⟨fun _ => hc, fun _ => rfl⟩
    · rw [if_neg hc, if_neg (by omega : ¬ ps.length ≤ 1)]
      exact ⟨fun h => Except.noConfusion h, fun h => absurd h hc⟩
  · intro h1 hle
    simp only [SpawnMultiSig]
    rw [hmod, if_neg (by omega : ¬ (t < 1 ∨ ps.length < t)),
      if_neg (by omega : ¬ ps.length ≤ 1)]

/-- C5 witness: `SpawnMultiSig` with threshold 2 and two participants
succeeds with the deterministic principal of those inputs. -/
theorem spawnMultiSig_threshold_check_witness :
    SpawnMultiSig cpZero 2 [pkZero, pkZero] = .ok (cpZero 2 [pkZero, pkZero]) :=
  (spawnMultiSig_threshold_check cpZero 2 [pkZero, pkZero] (by decide)
    (by decide) (by decide)).2 (by decide) (by decide)

/-- C2 counterexample: `SpawnMultiSig` with threshold 2 and a single
participant fails with the invalid-threshold error, not with the
invalid-participant-count error, because the threshold check at
wallet.go:191 runs before the participant-count check at wallet.go:195. -/
theorem spawnMultiSig_two_of_one_counterexample :
    SpawnMultiSig cpZero 2 [pkZero] = .error .invalidThreshold ∧
    SpawnMultiSig cpZero 2 [pkZero] ≠ .error .invalidParticipantCount :=
  ⟨rfl, fun h => MultisigErr.noConfusion (Except.error.inj h)⟩

/-- C2 amended: every call with fewer than 2 participants fails, but the
error is the invalid-participant-count error exactly when the list has one
element and the threshold is exactly 1 (so the threshold check passes);
in every other case — in particular threshold 2 with one participant —
it is the invalid-threshold error. -/
theorem spawnMultiSig_participant_count {A : Type}
    (cp : Nat → List (List Nat) → A) (t : Nat) (ps : List (List Nat))
    (hlt : ps.length < 2) :
    (∃ e, SpawnMultiSig cp t ps = .error e)
  ∧ (SpawnMultiSig cp t ps = .error .invalidParticipantCount ↔
      ps.length = 1 ∧ t = 1)
  ∧ (∀ p : List Nat, SpawnMultiSig cp 2 [p] = .error .invalidThreshold) := by
  have hmod : ps.length % 256 = ps.length := Nat.mod_eq_of_lt (by omega)
  refine ⟨?_, ?_, fun p => rfl⟩
  · simp only [SpawnMultiSig]
    rw [hmod]
    by_cases hc : t < 1 ∨ ps.length < t
    · rw [if_pos hc]; exact ⟨.invalidThreshold, rfl⟩
    · rw [if_neg hc, if_pos (by omega : ps.length ≤ 1)]
      exact ⟨.invalidParticipantCount, rfl⟩
  · simp only [SpawnMultiSig]
    rw [hmod]
    by_cases hc : t < 1 ∨ ps.length < t
    · rw [if_pos hc]
      constructor
      · intro h; exact absurd (Except.error.inj h) (fun hh => MultisigErr.noConfusion hh)
      · intro h; omega
    · rw [if_neg hc, if_pos (by omega : ps.length ≤ 1)]
      constructor
      · intro _; omega
      · intro _; rfl

/-- C2 witness: with one participant and threshold exactly 1, the call
fails with the invalid-participant-count error. -/
theorem spawnMultiSig_participant_count_witness :
    SpawnMultiSig cpZero 1 [pkZero] = .error .invalidParticipantCount :=
  ((spawnMultiSig_participant_count cpZero 1 [pkZero] (by decide)).2.1).2
    ⟨by decide, rfl⟩

/-- C9: the threshold check of `SpawnMultiSig` compares the uint8 threshold
against `uint8(len(participants))`, i.e. the participant count reduced
modulo 256: whenever `t < 1` or `t > len(participants) % 256` the call
fails with the invalid-threshold error, and in particular with exactly 256
participants every threshold `t ≥ 1` — including `t = 1`, which satisfies
`1 ≤ t ≤ len(participants)` — is rejected with the invalid-threshold
error instead of succeeding. -/
theorem spawnMultiSig_uint8_truncation {A : Type}
    (cp : Nat → List (List Nat) → A) (t : Nat) (ps : List (List Nat)) :
    (t < 1 ∨ ps.length % 256 < t →
      SpawnMultiSig cp t ps = .error .invalidThreshold)
  ∧ (ps.length = 256 → 1 ≤ t →
      SpawnMultiSig cp t ps = .error .invalidThreshold) := by
  constructor
  · intro hc
    simp only [SpawnMultiSig]
    rw [if_pos hc]
  · intro h256 h1
    simp only [SpawnMultiSig]
    rw [if_pos (by omega : t < 1 ∨ t > ps.length % 256)]

/-- C9 witness: with exactly 256 participants and threshold 1 the call
fails with the invalid-threshold error even though
`1 ≤ 1 ≤ len(participants)`. -/
theorem spawnMultiSig_uint8_truncation_witness :
    SpawnMultiSig cpZero 1 (List.replicate 256 pkZero) =
      .error .invalidThreshold :=
  (spawnMultiSig_uint8_truncation cpZero 1 (List.replicate 256 pkZero)).2
    (List.length_replicate 256 pkZero) (by decide)

/-- Concrete trivial wallet principal computation for closed instances. -/
def cpWalletZero : List Nat → List Nat := fun key => key

/-- Concrete trivial address rendering for closed instances. -/
def addrStringZero : List Nat → String → String := fun _ hrp => hrp

/-- C7: `PubkeyToAddress` is deterministic — two calls with identical
public-key bytes and identical network prefix (and the same underlying
principal computation and rendering) return the identical address
string. -/
theorem pubkeyToAddress_deterministic {A : Type}
    (cp : List Nat → A) (render : A → String → String)
    (pk pk' : List Nat) (hrp hrp' : String)
    (hpk : pk = pk') (hhrp : hrp = hrp') :
    PubkeyToAddress cp render pk hrp = PubkeyToAddress cp render pk' hrp' := by
  rw [hpk, hhrp]

/-- C7 witness: a repeated call at a concrete key and prefix yields the
identical address string. -/
theorem pubkeyToAddress_deterministic_witness :
    PubkeyToAddress cpWalletZero addrStringZero pkZero "sm" =
      PubkeyToAddress cpWalletZero addrStringZero pkZero "sm" :=
  pubkeyToAddress_deterministic cpWalletZero addrStringZero pkZero pkZero
    "sm" "sm" rfl rfl

/-- C10: `PubkeyToAddress` is total over byte slices of any length: it
always renders the principal of the 32-byte buffer obtained by copying at
most the first 32 bytes of `pubkey` over zeroes, so any two inputs whose
first 32 bytes agree after zero-padding map to the same address. -/
theorem pubkeyToAddress_total_truncation {A : Type}
    (cp : List Nat → A) (render : A → String → String)
    (pk pk' : List Nat) (hrp : String)
    (h : pk.take 32 ++ List.replicate (32 - pk.length) 0 =
      pk'.take 32 ++ List.replicate (32 - pk'.length) 0) :
    PubkeyToAddress cp render pk hrp =
      render (cp (pk.take 32 ++ List.replicate (32 - pk.length) 0)) hrp
  ∧ PubkeyToAddress cp render pk hrp = PubkeyToAddress cp render pk' hrp := by
  constructor
  · rfl
  · simp only [PubkeyToAddress]
    rw [h]

/-- C10 witness: the empty public key and the singleton zero public key
agree on their zero-padded 32-byte prefix and map to the same address. -/
theorem pubkeyToAddress_total_truncation_witness :
    PubkeyToAddress cpWalletZero addrStringZero [] "sm" =
      PubkeyToAddress cpWalletZero addrStringZero [0] "sm" :=
  (pubkeyToAddress_total_truncation cpWalletZero addrStringZero [] [0] "sm"
    (by decide)).2

/-- Shape of a successful run of the derivation loop: starting at index
`i` with `rem` accounts to go, a successful result has length `rem` and
its `j`-th element is the keypair derived at index `i + j`. -/
theorem accountsFromMasterGo_ok_spec {K E : Type} (derive : Nat → Except E K) :
    ∀ (rem i : Nat) (l : List K),
      accountsFromMasterGo derive i rem = .ok l →
      l.length = rem ∧
        ∀ j, j < rem → ∃ k, derive (i + j) = .ok k ∧ l[j]? = some k := by
  intro rem
  induction rem with
  | zero =>
    intro i l h
    simp only [accountsFromMasterGo] at h
    cases h
    exact ⟨rfl, fun j hj => absurd hj (Nat.not_lt_zero j)⟩
  | succ rem ih =>
    intro i l h
    simp only [accountsFromMasterGo] at h
    cases hd : derive i with
    | error e => rw [hd] at h; cases h
    | ok acct =>
      rw [hd] at h
      cases hg : accountsFromMasterGo derive (i + 1) rem with
      | error e => rw [hg] at h; cases h
      | ok accts =>
        rw [hg] at h
        cases h
        obtain ⟨hlen, hspec⟩ := ih (i + 1) accts hg
        refine ⟨by simp [hlen], ?_⟩
        intro j hj
        cases j with
        | zero => exact ⟨acct, by simpa using hd, by simp⟩
        | succ j' =>
          obtain ⟨k, hk1, hk2⟩ := hspec j' (by omega)
          refine ⟨k, ?_, ?_⟩
          · rw [show i + (j' + 1) = i + 1 + j' by omega]
            exact hk1
          · simpa using hk2

/-- Totality of the derivation loop when every needed derivation
succeeds. -/
theorem accountsFromMasterGo_total_ok {K E : Type} (derive : Nat → Except E K) :
    ∀ (rem i : Nat), (∀ j, j < rem → ∃ k, derive (i + j) = .ok k) →
      ∃ l, accountsFromMasterGo derive i rem = .ok l := by
  intro rem
  induction rem with
  | zero => exact fun i _ => ⟨[], rfl⟩
  | succ rem ih =>
    intro i hall
    obtain ⟨k0, hk0⟩ := hall 0 (Nat.succ_pos rem)
    simp only [Nat.add_zero] at hk0
    obtain ⟨l, hl⟩ := ih (i + 1) (fun j hj => by
      obtain ⟨k, hk⟩ := hall (j + 1) (by omega)
      exact ⟨k, by rw [show i + 1 + j = i + (j + 1) by omega]; exact hk⟩)
    refine ⟨k0 :: l, ?_⟩
    simp only [accountsFromMasterGo]
    rw [hk0, hl]

/-- Fail-fast behaviour of the derivation loop: if the derivation at
offset `j` fails with `e` while all earlier ones succeed, the whole loop
returns exactly `e`. -/
theorem accountsFromMasterGo_error_spec {K E : Type}
    (derive : Nat → Except E K) :
    ∀ (rem i j : Nat) (e : E), j < rem → derive (i + j) = .error e →
      (∀ j', j' < j → ∃ k, derive (i + j') = .ok k) →
      accountsFromMasterGo derive i rem = .error e := by
  intro rem
  induction rem with
  | zero => exact fun i j e hj _ _ => absurd hj (Nat.not_lt_zero j)
  | succ rem ih =>
    intro i j e hj hde hearlier
    simp only [accountsFromMasterGo]
    cases j with
    | zero =>
      simp only [Nat.add_zero] at hde
      rw [hde]
    | succ j' =>
      obtain ⟨k0, hk0⟩ := hearlier 0 (Nat.succ_pos j')
      simp only [Nat.add_zero] at hk0
      rw [hk0]
      have hrec : accountsFromMasterGo derive (i + 1) rem = .error e :=
        ih (i + 1) j' e (by omega)
          (by rw [show i + 1 + j' = i + (j' + 1) by omega]; exact hde)
          (fun j'' hj'' => by
            obtain ⟨k, hk⟩ := hearlier (j'' + 1) (by omega)
            refine ⟨k, ?_⟩
            rw [show i + 1 + j'' = i + (j'' + 1) by omega]
            exact hk)
      rw [hrec]

/-- C3: `accountsFromMaster` returns, for every derivation function and
every count `n`, either a list of exactly `n` keypairs whose element at
position `i` is the child derived with index `i` (indices `0..n-1` in
increasing order) — and it does succeed whenever every derivation at an
index below `n` succeeds — or, when the derivation at some index fails
with all earlier indices succeeding, exactly that error with no partial
account list. -/
theorem accountsFromMaster_spec {K E : Type} (derive : Nat → Except E K)
    (n : Nat) :
    (∀ l, accountsFromMaster derive n = .ok l →
      l.length = n ∧ ∀ i, i < n → ∃ k, derive i = .ok k ∧ l[i]? = some k)
  ∧ ((∀ i, i < n → ∃ k, derive i = .ok k) →
      ∃ l, accountsFromMaster derive n = .ok l)
  ∧ (∀ j e, j < n → derive j = .error e →
      (∀ i, i < j → ∃ k, derive i = .ok k) →
      accountsFromMaster derive n = .error e) := by
  refine ⟨?_, ?_, ?_⟩
  · intro l h
    obtain ⟨hlen, hspec⟩ := accountsFromMasterGo_ok_spec derive n 0 l h
    exact ⟨hlen, fun i hi => by simpa using hspec i hi⟩
  · intro hall
    exact accountsFromMasterGo_total_ok derive n 0
      (fun j hj => by simpa using hall j hj)
  · intro j e hj hde hearlier
    exact accountsFromMasterGo_error_spec derive n 0 j e hj
      (by simpa using hde) (fun j' hj' => by simpa using hearlier j' hj')

/-- C3 witness: with a derivation that always succeeds returning its
index, deriving 3 accounts succeeds. -/
theorem accountsFromMaster_spec_witness :
    ∃ l, accountsFromMaster (fun i => (.ok i : Except Unit Nat)) 3 = .ok l :=
  (accountsFromMaster_spec (fun i => (.ok i : Except Unit Nat)) 3).2.1
    (fun i _ => ⟨i, rfl⟩)

/-- Concrete environment whose phrase validation always rejects, for
closed instances of the validation theorems. -/
def envReject : WalletEnv Unit Unit :=
  { maxAccountsPerWallet := 10
    isMnemonicValid := fun _ => false
    newSeed := fun _ => []
    newMasterKeyPair := fun _ => .ok ()
    newMasterKeyPairFromLedger := .ok ()
    newChildKeyPair := fun _ _ _ => .ok ()
    nowTimeString := "" }

/-- Concrete environment whose phrase validation always accepts, for
closed instances of the construction theorems. -/
def envAccept : WalletEnv Unit Unit :=
  { maxAccountsPerWallet := 10
    isMnemonicValid := fun _ => true
    newSeed := fun _ => []
    newMasterKeyPair := fun _ => .ok ()
    newMasterKeyPairFromLedger := .ok ()
    newChildKeyPair := fun _ _ _ => .ok ()
    nowTimeString := "" }

/-- C1: for every phrase `m` (and in-range account count), wallet
construction fails with the whitespace-violation error whenever rejoining
`m`'s whitespace-separated fields with single ASCII spaces differs from
`m` verbatim — regardless of whether the phrase would checksum-validate —
and every single-space-separated phrase (one equal to its canonical form)
that fails the bip39 word-count/checksum validation fails with the
invalid-mnemonic error. -/
theorem newMultiWalletFromMnemonic_validation {K E : Type}
    (env : WalletEnv K E) (m : List Char) (n : Int) (h0 : 0 ≤ n)
    (h1 : n ≤ (env.maxAccountsPerWallet : Int)) :
    (mnemonicCanonical m ≠ m →
      NewMultiWalletFromMnemonic env m n = .error .whitespaceViolation)
  ∧ (mnemonicCanonical m = m → env.isMnemonicValid m = false →
      NewMultiWalletFromMnemonic env m n = .error .invalidMnemonic) := by
  have hn : ¬ (n < 0 ∨ n > (env.maxAccountsPerWallet : Int)) := by omega
  constructor
  · intro hw
    simp only [NewMultiWalletFromMnemonic]
    rw [if_neg hn, if_pos hw]
  · intro hc hv
    simp only [NewMultiWalletFromMnemonic]
    rw [if_neg hn, if_neg (not_not_intro hc), if_pos (by simp [hv])]

/-- C1 witness: a doubled space inside an otherwise canonical phrase is
rejected with the whitespace-violation error even though the environment's
checksum validation is irrelevant to that branch. -/
theorem newMultiWalletFromMnemonic_validation_witness :
    NewMultiWalletFromMnemonic envReject (['a', ' ', ' ', 'b']) 0 =
      .error .whitespaceViolation :=
  (newMultiWalletFromMnemonic_validation envReject (['a', ' ', ' ', 'b']) 0
    (by decide) (by decide)).1 (by decide)

/-- C6: with a phrase equal to its canonical form that validates, and a
master-key derivation that succeeds, wallet construction with account
count 0 succeeds and produces a wallet whose account list is empty. -/
theorem newMultiWalletFromMnemonic_zero_accounts {K E : Type}
    (env : WalletEnv K E) (m : List Char) (master : K)
    (hw : mnemonicCanonical m = m) (hv : env.isMnemonicValid m = true)
    (hm : env.newMasterKeyPair (env.newSeed m) = .ok master) :
    NewMultiWalletFromMnemonic env m 0 =
      .ok { meta := { displayName := "Main Wallet"
                      created := env.nowTimeString
                      genesisID := "" }
            secrets := { mnemonic := m
                         masterKeypair := master
                         accounts := [] } } := by
  simp only [NewMultiWalletFromMnemonic]
  rw [if_neg (by omega : ¬ ((0 : Int) < 0 ∨
        (0 : Int) > (env.maxAccountsPerWallet : Int))),
    if_neg (not_not_intro hw), if_neg (by simp [hv]), hm]
  rfl

/-- C6 witness: the concrete accepting environment with the canonical
phrase `"a b"` and zero requested accounts yields a wallet with an empty
account list. -/
theorem newMultiWalletFromMnemonic_zero_accounts_witness :
    NewMultiWalletFromMnemonic envAccept (['a', ' ', 'b']) 0 =
      .ok { meta := { displayName := "Main Wallet"
                      created := envAccept.nowTimeString
                      genesisID := "" }
            secrets := { mnemonic := ['a', ' ', 'b']
                         masterKeypair := ()
                         accounts := [] } } :=
  newMultiWalletFromMnemonic_zero_accounts envAccept (['a', ' ', 'b']) ()
    (by decide) rfl rfl

/-- C4: both wallet constructors fail with the invalid-account-count error
exactly when `n < 0` or `n > MaxAccountsPerWallet`; since the equivalence
holds for every phrase and every environment, the check is independent of
— and therefore precedes — any mnemonic validation or key derivation. -/
theorem newMultiWallet_invalidAccountCount {K E : Type} (env : WalletEnv K E)
    (m : List Char) (n : Int) :
    (NewMultiWalletFromMnemonic env m n = .error .invalidAccountCount ↔
      n < 0 ∨ n > (env.maxAccountsPerWallet : Int))
  ∧ (NewMultiWalletFromLedger env n = .error .invalidAccountCount ↔
      n < 0 ∨ n > (env.maxAccountsPerWallet : Int)) := by
  constructor
  · by_cases hn : n < 0 ∨ n > (env.maxAccountsPerWallet : Int)
    · simp only [NewMultiWalletFromMnemonic]
      rw [if_pos hn]
      exact ⟨fun _ => hn, fun _ => rfl⟩
    · simp only [NewMultiWalletFromMnemonic]
      rw [if_neg hn]
      refine ⟨fun h => ?_, fun h => absurd h hn⟩
      exfalso
      by_cases hw : mnemonicCanonical m ≠ m
      · rw [if_pos hw] at h
        exact WalletErr.noConfusion (Except.error.inj h)
      · rw [if_neg hw] at h
        by_cases hv : ¬ env.isMnemonicValid m
        · rw [if_pos hv] at h
          exact WalletErr.noConfusion (Except.error.inj h)
        · rw [if_neg hv] at h
          split at h
          · exact WalletErr.noConfusion (Except.error.inj h)
          · split at h
            · exact WalletErr.noConfusion (Except.error.inj h)
            · exact Except.noConfusion h
  · by_cases hn : n < 0 ∨ n > (env.maxAccountsPerWallet : Int)
    · simp only [NewMultiWalletFromLedger]
      rw [if_pos hn]
      exact ⟨fun _ => hn, fun _ => rfl⟩
    · simp only [NewMultiWalletFromLedger]
      rw [if_neg hn]
      refine ⟨fun h => ?_, fun h => absurd h hn⟩
      exfalso
      split at h
      · exact WalletErr.noConfusion (Except.error.inj h)
      · split at h
        · exact WalletErr.noConfusion (Except.error.inj h)
        · exact Except.noConfusion h

/-- C4 witness: requesting 11 accounts when the configured maximum is 10
fails with the invalid-account-count error, for an environment whose
phrase validation always accepts and the whitespace-violating phrase
`"a  b"` — so the count check fires before mnemonic validation. -/
theorem newMultiWallet_invalidAccountCount_witness :
    NewMultiWalletFromMnemonic envAccept (['a', ' ', ' ', 'b']) 11 =
      .error .invalidAccountCount :=
  (newMultiWallet_invalidAccountCount envAccept (['a', ' ', ' ', 'b'])
    11).1.2 (by decide)

/-- Uppercase hex digit of a nibble (alphabet `"0123456789ABCDEF"`); used
to state case-insensitivity of the decoder, which the source inherits from
`hex.DecodeString`. -/
def hexDigitUpperChar (n : Nat) : Char :=
  if n < 10 then Char.ofNat (48 + n) else Char.ofNat (55 + n)

/-- Uppercase hex encoding of a byte sequence, the case-variant of
`hexEncodeToString`. -/
def hexEncodeUpperString (bs : List Nat) : List Char :=
  bs.flatMap (fun b => [hexDigitUpperChar (b / 16), hexDigitUpperChar (b % 16)])

/-- Decoding inverts the lowercase digit table. -/
theorem hexCharValue_hexDigitChar (n : Nat) (h : n < 16) :
    hexCharValue (hexDigitChar n) = some n := by
  revert h
  revert n
  decide

/-- Decoding inverts the uppercase digit table. -/
theorem hexCharValue_hexDigitUpperChar (n : Nat) (h : n < 16) :
    hexCharValue (hexDigitUpperChar n) = some n := by
  revert h
  revert n
  decide

/-- Lowercase hex digits need no JSON escaping. -/
theorem plainJsonChar_hexDigitChar (n : Nat) (h : n < 16) :
    plainJsonChar (hexDigitChar n) = true := by
  revert h
  revert n
  decide

/-- Hex-decoding inverts hex-encoding on byte sequences. -/
theorem hexDecode_hexEncode (bs : List Nat) (hb : ∀ b ∈ bs, b < 256) :
    hexDecodeString (hexEncodeToString bs) = .ok bs := by
  induction bs with
  | nil => rfl
  | cons b bs ih =>
    have hb0 : b < 256 := hb b (List.mem_cons_self b bs)
    have hhi : b / 16 < 16 := Nat.div_lt_of_lt_mul (by omega)
    have hlo : b % 16 < 16 := Nat.mod_lt b (by omega)
    have henc : hexEncodeToString (b :: bs) =
        hexDigitChar (b / 16) :: hexDigitChar (b % 16) ::
          hexEncodeToString bs := by
      simp [hexEncodeToString]
    rw [henc]
    simp only [hexDecodeString, hexCharValue_hexDigitChar (b / 16) hhi,
      hexCharValue_hexDigitChar (b % 16) hlo,
      ih (fun x hx => hb x (List.mem_cons_of_mem b hx)), Nat.div_add_mod]

/-- Hex-decoding also inverts the uppercase hex-encoding, with the same
resulting bytes. -/
theorem hexDecode_hexEncodeUpper (bs : List Nat) (hb : ∀ b ∈ bs, b < 256) :
    hexDecodeString (hexEncodeUpperString bs) = .ok bs := by
  induction bs with
  | nil => rfl
  | cons b bs ih =>
    have hb0 : b < 256 := hb b (List.mem_cons_self b bs)
    have hhi : b / 16 < 16 := Nat.div_lt_of_lt_mul (by omega)
    have hlo : b % 16 < 16 := Nat.mod_lt b (by omega)
    have henc : hexEncodeUpperString (b :: bs) =
        hexDigitUpperChar (b / 16) :: hexDigitUpperChar (b % 16) ::
          hexEncodeUpperString bs := by
      simp [hexEncodeUpperString]
    rw [henc]
    simp only [hexDecodeString, hexCharValue_hexDigitUpperChar (b / 16) hhi,
      hexCharValue_hexDigitUpperChar (b % 16) hlo,
      ih (fun x hx => hb x (List.mem_cons_of_mem b hx)), Nat.div_add_mod]

/-- Every character of a lowercase hex encoding is escape-free. -/
theorem hexEncode_all_plain (bs : List Nat) (hb : ∀ b ∈ bs, b < 256) :
    (hexEncodeToString bs).all plainJsonChar = true := by
  induction bs with
  | nil => rfl
  | cons b bs ih =>
    have hb0 : b < 256 := hb b (List.mem_cons_self b bs)
    have hhi : b / 16 < 16 := Nat.div_lt_of_lt_mul (by omega)
    have hlo : b % 16 < 16 := Nat.mod_lt b (by omega)
    have henc : hexEncodeToString (b :: bs) =
        hexDigitChar (b / 16) :: hexDigitChar (b % 16) ::
          hexEncodeToString bs := by
      simp [hexEncodeToString]
    rw [henc]
    simp only [List.all_cons, plainJsonChar_hexDigitChar (b / 16) hhi,
      plainJsonChar_hexDigitChar (b % 16) hlo,
      ih (fun x hx => hb x (List.mem_cons_of_mem b hx)), Bool.and_self]

/-- JSON string unmarshalling inverts marshalling on escape-free
strings. -/
theorem jsonUnmarshalString_marshal (s : List Char)
    (hs : s.all plainJsonChar = true) :
    jsonUnmarshalString (jsonMarshalString s) = .ok s := by
  have hlast : ('"' :: s ++ ['"']).getLast? = some '"' :=
    List.getLast?_concat _
  have hdrop : (('"' :: s ++ ['"']).drop 1).dropLast = s := by simp
  simp only [jsonMarshalString, jsonUnmarshalString]
  rw [hdrop]
  rw [if_pos]
  refine ⟨?_, rfl, hlast, hs⟩
  simp

/-- C8: unmarshalling the marshalled hex encoding of a byte sequence
recovers exactly that sequence; the decoder accepts the uppercase and the
lowercase hex encoding alike, yielding the same bytes for either case; and
unmarshalling a JSON string whose content is not well-formed hex fails
with an error. -/
theorem hexCiphertext_roundtrip :
    (∀ bs : List Nat, (∀ b ∈ bs, b < 256) →
      ciphertextUnmarshalJSON (ciphertextMarshalJSON bs) = .ok bs)
  ∧ (∀ bs : List Nat, (∀ b ∈ bs, b < 256) →
      hexDecodeString (hexEncodeUpperString bs) =
        hexDecodeString (hexEncodeToString bs))
  ∧ (∀ s : List Char, s.all plainJsonChar = true →
      (∃ e, hexDecodeString s = .error e) →
      ∃ e, ciphertextUnmarshalJSON (jsonMarshalString s) = .error e) := by
  refine ⟨?_, ?_, ?_⟩
  · intro bs hb
    simp only [ciphertextMarshalJSON, ciphertextUnmarshalJSON,
      jsonUnmarshalString_marshal (hexEncodeToString bs)
        (hexEncode_all_plain bs hb)]
    exact hexDecode_hexEncode bs hb
  · intro bs hb
    rw [hexDecode_hexEncode bs hb, hexDecode_hexEncodeUpper bs hb]
  · intro s hsplain he
    obtain ⟨e, he⟩ := he
    simp only [ciphertextUnmarshalJSON, jsonUnmarshalString_marshal s hsplain]
    exact ⟨e, he⟩

/-- C8 witness: the bytes `[0, 171, 255]` survive the marshal/unmarshal
round trip exactly. -/
theorem hexCiphertext_roundtrip_witness :
    ciphertextUnmarshalJSON (ciphertextMarshalJSON [0, 171, 255]) =
      .ok [0, 171, 255] :=
  hexCiphertext_roundtrip.1 [0, 171, 255] (by decide)
